import Mathlib

/-!
Verification development for the `apache-commons-validator-python` repository.

The Python sources under `src/src/main` (and `src/src/apache_commons_validator_python`)
are shallowly embedded below: Python `dict`/`OrderedDict` values become association
lists with insertion-order semantics (`odInsert` updates an existing key in place and
appends a fresh key, exactly like CPython dicts), `None`-able values become `Option`,
and raising code returns `Except String`.  All definitions are translated from the
repository sources, except for the parts the repository references but does not ship
(`Field`, `ModulusCheckDigit`, `CodeValidator`): those are modelled from the spec and
carry a doc comment saying so.
-/

namespace ACV
/-! ## Ordered-dictionary (Python `dict` / `OrderedDict`) semantics -/

/-- Lookup in an insertion-ordered association list (Python `d.get(k)` / `d[k]`). -/
def odLookup {α : Type} (d : List (String × α)) (k : String) : Option α :=
  match d with
  | [] => none
  | (k', v) :: rest => if k' = k then some v else odLookup rest k

/-- Membership test (Python `k in d`). -/
def odContains {α : Type} (d : List (String × α)) (k : String) : Bool :=
  (odLookup d k).isSome

/-- Python `d[k] = v`: an existing key keeps its position and gets the new value,
a fresh key is appended at the end. -/
def odInsert {α : Type} (d : List (String × α)) (k : String) (v : α) : List (String × α) :=
  match d with
  | [] => [(k, v)]
  | (k', v') :: rest => if k' = k then (k, v) :: rest else (k', v') :: odInsert rest k v

/-! ## Constants maps and Fields -/

/-- A constants map (`Dict[str, str]` in the sources). -/
abbrev Consts := List (String × String)

/-- Modelled from the spec: the repository ships no `Field.py` (only `Form.py` refers to
it); per spec §3 a Field is identified by its immutable `key` and carries string-keyed
auxiliary `vars`. -/
structure Field where
  key : String
  vars : List (String × String)
deriving DecidableEq, Repr

instance : Inhabited Field := ⟨⟨"", []⟩⟩

/-- Python `field.get_key()`. -/
def Field.get_key (f : Field) : String := f.key

/-- Modelled from the spec: §4.3 — a named-constant placeholder inside a var value is
replaced by the constant's value (local constants consulted before global ones); a
value naming no constant is kept. -/
def substConstant (global_constants constants : Consts) (v : String) : String :=
  match odLookup constants v with
  | some r => r
  | none =>
    match odLookup global_constants v with
    | some r => r
    | none => v

/-- Modelled from the spec: `Field.process(global_constants, local_constants)` (§4.3)
performs one-time constant substitution inside the field's var values; the key is
immutable. -/
def Field.process (f : Field) (global_constants constants : Consts) : Field :=
  { f with vars := f.vars.map fun kv => (kv.1, substConstant global_constants constants kv.2) }

/-! ## Form (`src/src/main/Form.py`) -/

/-- State of a `Form`: name, ordered field list `_lFields`, ordered field map
`_hFields`, parent name `_inherit`, and the `_processed` flag.  (`Form.__init__`
starts with empty collections and `processed = False`; the digester sets `name`
before the form is used, so it is modelled as a plain string.) -/
structure Form where
  name : String := ""
  lFields : List Field := []
  hFields : List (String × Field) := []
  inherit : Option String := none
  processed : Bool := false
deriving DecidableEq, Repr

instance : Inhabited Form := ⟨{}⟩

/-- `Form.add_field`: `self._lFields.append(field); self._hFields[field.get_key()] = field`. -/
def Form.add_field (self : Form) (field : Field) : Form :=
  { self with
    lFields := self.lFields ++ [field]
    hFields := odInsert self.hFields field.get_key field }

/-- `Form.contains_field`: `field_name in self._hFields`. -/
def Form.contains_field (self : Form) (field_name : String) : Bool :=
  odContains self.hFields field_name

/-- `Form.get_field`: `self._hFields.get(field_name)`. -/
def Form.get_field (self : Form) (field_name : String) : Option Field :=
  odLookup self.hFields field_name

/-- `Form.is_extending`: `self._inherit is not None`. -/
def Form.is_extending (self : Form) : Bool := self.inherit.isSome

/-- `Form.is_processed`: `self._processed`. -/
def Form.is_processed (self : Form) : Bool := self.processed

/-! ## `Form._process` (Form.py lines 162-186)

Python mutates `self` in place; the embedding passes the state explicitly and returns
the updated form.  The recursion into an unprocessed parent is fuelled (the Python
code recurses unboundedly on cyclic `extends` chains; fuel exhaustion is `none`).
Reading the parent from the unchanged `forms` map is faithful: along one `_process`
call chain each form is visited at most once unless the chain is cyclic, and in the
cyclic case both the Python code and the embedding fail to terminate normally. -/

/-- Python `list.insert(n, a)` for `n ≤ len l`. -/
def insertAt {α : Type} (n : Nat) (a : α) (l : List α) : List α :=
  l.take n ++ a :: l.drop n

/-- The inheritance loop of `Form._process`: walk the parent's fields; a field whose
key is not yet in `self._hFields` is inserted into the list at the moving cursor `n`
and into the map.  Arguments: remaining parent fields, current list, current map,
cursor. -/
def Form.inheritLoop : List Field → List Field → List (String × Field) → Nat →
    List Field × List (String × Field) × Nat
  | [], l, h, n => (l, h, n)
  | f :: rest, l, h, n =>
    if odContains h f.get_key then Form.inheritLoop rest l h n
    else Form.inheritLoop rest (insertAt n f l) (odInsert h f.get_key f) (n + 1)

/-- The tail step of `Form._process`: `for field in self._lFields[n:]:
field.process(global_constants, constants)`.  The fields in `self._lFields` are the
same Python objects as the values of `self._hFields`, so processing the tail in place
also updates the map entries whose key occurs in the tail. -/
def Form.processOwn (g c : Consts) (l : List Field) (h : List (String × Field)) (n : Nat) :
    List Field × List (String × Field) :=
  (l.take n ++ (l.drop n).map (fun f => f.process g c),
   h.map fun kv =>
     if (l.drop n).any (fun f => f.get_key == kv.1) then (kv.1, kv.2.process g c) else kv)

/-- `Form._process(global_constants, constants, forms)`: return immediately when
processed; otherwise resolve the parent (recursively processing an unprocessed parent
with the two constant maps swapped, as in the source), prepend the parent fields whose
keys the form does not declare, process the form's own fields, and mark processed. -/
def Form.processAux : Nat → Consts → Consts → List (String × Form) → Form → Option Form
  | 0, _, _, _, _ => none
  | Nat.succ fuel, g, c, forms, self =>
    if self.processed then some self
    else
      let inh : Option (List Field × List (String × Field) × Nat) :=
        match self.inherit with
        | none => some (self.lFields, self.hFields, 0)
        | some pname =>
          match odLookup forms pname with
          | none => some (self.lFields, self.hFields, 0)
          | some parent =>
            if parent.processed then
              some (Form.inheritLoop parent.lFields self.lFields self.hFields 0)
            else
              match Form.processAux fuel c g forms parent with
              | none => none
              | some parent2 =>
                some (Form.inheritLoop parent2.lFields self.lFields self.hFields 0)
      match inh with
      | none => none
      | some (l, h, n) =>
        let own := Form.processOwn g c l h n
        some { self with lFields := own.1, hFields := own.2, processed := true }

/-! ### Characterising the inheritance loop -/

/-- The fields the loop actually inserts: parent fields filtered sequentially against
the growing key map. -/
def seqFilter (h : List (String × Field)) : List Field → List Field
  | [] => []
  | f :: rest =>
    if odContains h f.get_key then seqFilter h rest
    else f :: seqFilter (odInsert h f.get_key f) rest

/-- The key map produced by the loop. -/
def seqFilterH (h : List (String × Field)) : List Field → List (String × Field)
  | [] => h
  | f :: rest =>
    if odContains h f.get_key then seqFilterH h rest
    else seqFilterH (odInsert h f.get_key f) rest

/-! ## FormSet (`src/src/main/FormSet.py`) -/

/-- Python truthiness of an optional string component (`if self._variant:` is false
for both `None` and `""`). -/
def truthyStr : Option String → Bool
  | none => false
  | some s => s ≠ ""

/-- State of a `FormSet`: the locale components, the name→Form map, the constants map
and the `processed`/`merged` flags. -/
structure FormSet where
  language : Option String := none
  country : Option String := none
  variant : Option String := none
  forms : List (String × Form) := []
  constants : Consts := []
  processed : Bool := false
  merged : Bool := false
deriving DecidableEq, Repr

instance : Inhabited FormSet := ⟨{}⟩

/-- FormSet type constants. -/
def FormSet.GLOBAL_FORMSET : Nat := 1

def FormSet.LANGUAGE_FORMSET : Nat := 2

def FormSet.COUNTRY_FORMSET : Nat := 3

def FormSet.VARIANT_FORMSET : Nat := 4

/-- `FormSet.get_form(form_name)`: `self._forms.get(form_name)`. -/
def FormSet.get_form (self : FormSet) (form_name : String) : Option Form :=
  odLookup self.forms form_name

/-- `FormSet.add_form(f)`: a form whose name is already present is ignored (only an
error is logged), otherwise it is stored under `f.get_name()`. -/
def FormSet.add_form (self : FormSet) (f : Form) : FormSet :=
  if odContains self.forms f.name then self
  else { self with forms := odInsert self.forms f.name f }

/-- `FormSet._get_type` (FormSet.py lines 189-206): raises `ValueError` when variant
is set without language and country, or country without language; otherwise classifies
by the most specific truthy component. -/
def FormSet.get_type (self : FormSet) : Except String Nat :=
  if truthyStr self.variant then
    if !truthyStr self.language || !truthyStr self.country then
      Except.error "When variant is specified, country and language must be specified."
    else Except.ok FormSet.VARIANT_FORMSET
  else if truthyStr self.country then
    if !truthyStr self.language then
      Except.error "When country is specified, language must be specified."
    else Except.ok FormSet.COUNTRY_FORMSET
  else if truthyStr self.language then Except.ok FormSet.LANGUAGE_FORMSET
  else Except.ok FormSet.GLOBAL_FORMSET

/-- `FormSet._merge(depends)` (FormSet.py lines 208-224).  With a non-`None` argument
the body's first statement is `p_forms = self.get_forms()`, but the class defines only
the property `forms` — there is no `get_forms` method — so the call raises
`AttributeError` before any form is merged and before `self._merged = True` runs.
(Even past that line, the collision branch calls `p_form.merge(form)` while `Form`
defines only `_merge`.)  With a falsy argument the loop is skipped and `_merged` is
set. -/
def FormSet.mergeSet (self : FormSet) (depends : Option FormSet) : Except String FormSet :=
  match depends with
  | none => Except.ok { self with merged := true }
  | some _ => Except.error "AttributeError: FormSet object has no attribute get_forms"

/-! ## ValidatorResources (`src/src/main/validator_resources.py`)

Only the pieces the claims exercise are embedded: the FormSet registry keyed by
locale string, the default FormSet, `build_locale`, `_build_key`, `add_form_set`
and `_get_form_with_locale`.  The constants/actions registries and the XML loading
front end play no role in any claim. -/

/-- State of `ValidatorResources`. -/
structure ValidatorResources where
  h_form_sets : List (String × FormSet) := []
  h_constants : Consts := []
  default_form_set : Option FormSet := none
deriving DecidableEq, Repr

instance : Inhabited ValidatorResources := ⟨{}⟩

/-- Python `"_".join(parts)`. -/
def joinUnderscore : List String → String
  | [] => ""
  | [s] => s
  | s :: rest => s ++ "_" ++ joinUnderscore rest

/-- `ValidatorResources.build_locale(lang, country, variant)`:
`"_".join(filter(None, [lang, country, variant]))` — `filter(None, ·)` drops the
falsy components (`None` and `""`). -/
def ValidatorResources.build_locale (lang country variant : Option String) : String :=
  joinUnderscore ((([lang, country, variant].filterMap id).filter (fun s => s ≠ "")))

/-- `ValidatorResources._build_key(form_set)`. -/
def ValidatorResources.build_key (form_set : FormSet) : String :=
  ValidatorResources.build_locale form_set.language form_set.country form_set.variant

/-- `ValidatorResources.add_form_set(form_set)`: an empty key registers the default
FormSet, otherwise the FormSet is stored (overriding) under its locale key. -/
def ValidatorResources.add_form_set (self : ValidatorResources) (form_set : FormSet) :
    ValidatorResources :=
  let key := ValidatorResources.build_key form_set
  if key = "" then { self with default_form_set := some form_set }
  else { self with h_form_sets := odInsert self.h_form_sets key form_set }

/-- `ValidatorResources._get_form_with_locale(language, country, variant, form_key)`
(validator_resources.py lines 119-162).  The first two levels test
`if form_set is not None`, but the third (language-only) level tests
`if form_set is None: form = form_set.get_form(form_key)` — inverted.  A FormSet
stored through `add_form_set` is never `None`, so when the language key is present
the inverted guard fails and the level yields no form.  The default lookup is wrapped
in `try/except`, so a missing default FormSet leaves `form = None`. -/
def ValidatorResources.get_form_with_locale (self : ValidatorResources)
    (language country variant : Option String) (form_key : String) : Option Form :=
  -- Try language/country/variant
  let form1 : Option Form :=
    match odLookup self.h_form_sets (ValidatorResources.build_locale language country variant) with
    | some form_set => form_set.get_form form_key
    | none => none
  -- Try language/country
  let form2 : Option Form :=
    match form1 with
    | some f => some f
    | none =>
      match odLookup self.h_form_sets (ValidatorResources.build_locale language country none) with
      | some form_set => form_set.get_form form_key
      | none => none
  -- Try language: the guard `if form_set is None` is inverted, so a FormSet found in
  -- the registry never contributes a form at this level.
  let form3 : Option Form :=
    match form2 with
    | some f => some f
    | none =>
      match odLookup self.h_form_sets (ValidatorResources.build_locale language none none) with
      | some _ => none
      | none => none
  -- Try the default formset (inside try/except)
  match form3 with
  | some f => some f
  | none =>
    match self.default_form_set with
    | some fs => fs.get_form form_key
    | none => none

/-! ## Check digits

`LuhnCheckDigit._weighted_value` and `EAN13CheckDigit._weighted_value` come from
`src/src/main/routines/checkdigit/`; their shared superclass `ModulusCheckDigit`
(and the `CodeValidator` the claims route validation through) is not in `src`, so it
is modelled from spec §4.1-§4.2. -/

/-- `LuhnCheckDigit._weighted_value` (luhn_checkdigit.py lines 40-58): weight 2 for
even right positions, 1 for odd; a weighted value above 9 is reduced by 9. -/
def LuhnCheckDigit.weighted_value (char_value left_pos right_pos : Nat) : Nat :=
  let _ := left_pos
  let weight := if right_pos % 2 = 0 then 2 else 1
  let weighted := char_value * weight
  if weighted > 9 then weighted - 9 else weighted

/-- `EAN13CheckDigit.POSITION_WEIGHT = [3, 1]`. -/
def EAN13CheckDigit.POSITION_WEIGHT : List Nat := [3, 1]

/-- `EAN13CheckDigit._weighted_value` (ean13.py):
`char_value * self.POSITION_WEIGHT[right_pos % 2]`. -/
def EAN13CheckDigit.weighted_value (char_value left_pos right_pos : Nat) : Nat :=
  let _ := left_pos
  char_value * (EAN13CheckDigit.POSITION_WEIGHT.getD (right_pos % 2) 0)

/-- Modelled from the spec: the `ModulusCheckDigit` base class is missing from `src`
(only the abstract `CheckDigit` interface, the two `_weighted_value` overrides and
tests are present); per spec §4.1 it carries a modulus and the position-weighting
function. -/
structure ModulusCheckDigit where
  modulus : Nat
  weightedValue : Nat → Nat → Nat → Nat

/-- The Luhn routine: modulus 10 with the Luhn weighting. -/
def luhnCheckDigit : ModulusCheckDigit := ⟨10, LuhnCheckDigit.weighted_value⟩

/-- The EAN-13 routine: modulus 10 with the EAN-13 weighting. -/
def ean13CheckDigit : ModulusCheckDigit := ⟨10, EAN13CheckDigit.weighted_value⟩

/-- Modelled from the spec: a character outside the algorithm's alphabet (the decimal
digits) is malformed; a digit maps to its numeric value. -/
def toIntDigit (ch : Char) : Except String Nat :=
  if 48 ≤ ch.toNat ∧ ch.toNat ≤ 57 then Except.ok (ch.toNat - 48)
  else Except.error "Invalid Character"

/-- Modelled from the spec: a check-digit value 0-9 maps to its display character. -/
def toCheckDigitChar (v : Nat) : Except String Char :=
  if v ≤ 9 then Except.ok (Char.ofNat (48 + v)) else Except.error "Invalid Check Digit Value"

/-- Modelled from the spec (§4.1): the weighted sum of the scan — character `i`
(0-based) has `left_pos = i + 1` and `right_pos = lth - i`; a non-digit character is
malformed. -/
def sumWeighted (wv : Nat → Nat → Nat → Nat) (lth : Nat) : List Char → Nat → Except String Nat
  | [], _ => Except.ok 0
  | ch :: rest, i =>
    match toIntDigit ch with
    | Except.error e => Except.error e
    | Except.ok v =>
      match sumWeighted wv lth rest (i + 1) with
      | Except.error e => Except.error e
      | Except.ok s => Except.ok (wv v (i + 1) (lth - i) + s)

/-- Modelled from the spec (§4.1): the modulus scan over the whole string;
`lth = len(code)` when the code includes its check digit and `len(code) + 1`
otherwise, a zero total is malformed, and the result is the total modulo the
configured modulus. -/
def ModulusCheckDigit.calculate_modulus (alg : ModulusCheckDigit) (code : String)
    (includesCheckDigit : Bool) : Except String Nat :=
  match sumWeighted alg.weightedValue
      (code.data.length + (if includesCheckDigit then 0 else 1)) code.data 0 with
  | Except.error e => Except.error e
  | Except.ok total =>
    if total = 0 then Except.error "Invalid code, sum is zero"
    else Except.ok (total % alg.modulus)

/-- Modelled from the spec (§4.1): `calculate` fails on an empty body and otherwise
returns the display character of `(modulus - (sum % modulus)) % modulus`. -/
def ModulusCheckDigit.calculate (alg : ModulusCheckDigit) (code : String) :
    Except String Char :=
  if code.data.isEmpty then Except.error "Code is missing"
  else
    match alg.calculate_modulus code false with
    | Except.error e => Except.error e
    | Except.ok m => toCheckDigitChar ((alg.modulus - m) % alg.modulus)

/-- Modelled from the spec (§4.1): `is_valid` never raises — the empty code and any
malformed code yield `false`; otherwise the code (check digit included) is valid when
its weighted total is divisible by the modulus. -/
def ModulusCheckDigit.is_valid (alg : ModulusCheckDigit) (code : String) : Bool :=
  if code.data.isEmpty then false
  else
    match alg.calculate_modulus code true with
    | Except.ok m => m == 0
    | Except.error _ => false

/-- Modelled from the spec: `CodeValidator` (§4.2) is missing from `src`.  The
regex-match-and-concatenate-groups step (1) is abstracted as `fmt` (the identity
`some` when no regex is configured); `minLength`/`maxLength` are `-1` when
unconfigured. -/
structure CodeValidator where
  fmt : String → Option String
  minLength : Int
  maxLength : Int
  checkdigit : Option ModulusCheckDigit

/-- Modelled from the spec (§4.2): candidate from the format step, then length
bounds, then the check-digit routine; the canonical candidate on success, `none` on
any failure. -/
def CodeValidator.validate (v : CodeValidator) (input : String) : Option String :=
  match v.fmt input with
  | none => none
  | some candidate =>
    if 0 ≤ v.minLength ∧ (candidate.data.length : Int) < v.minLength then none
    else if 0 ≤ v.maxLength ∧ (candidate.data.length : Int) > v.maxLength then none
    else
      match v.checkdigit with
      | none => some candidate
      | some alg => if alg.is_valid candidate then some candidate else none

/-- Modelled from the spec (§4.2): `is_valid()` is exactly `validate() is not None`. -/
def CodeValidator.is_valid (v : CodeValidator) (input : String) : Bool :=
  (v.validate input).isSome

/-! ## ValidatorResult / ValidatorResults
(`src/src/main/validator_result.py`, `src/src/main/validator_results.py`) -/

/-- A Python value returned by a validator action: `None`, a `bool`, or some other
object (represented by a tag). -/
inductive PyVal where
  | pynone
  | pybool (b : Bool)
  | obj (tag : Nat)
deriving DecidableEq, Repr

/-- `ValidatorResult.ResultStatus(valid, result)`. -/
structure ResultStatus where
  valid : Bool
  result : PyVal
deriving DecidableEq, Repr

/-- `ValidatorResult`: per-field map from validator name to `ResultStatus`
(`_h_action`). -/
structure ValidatorResult where
  h_action : List (String × ResultStatus) := []
deriving DecidableEq, Repr

/-- `ValidatorResult.add(validator_name, result, value)`. -/
def ValidatorResult.add (self : ValidatorResult) (validator_name : String) (result : Bool)
    (value : PyVal) : ValidatorResult :=
  { self with h_action := odInsert self.h_action validator_name ⟨result, value⟩ }

/-- `ValidatorResult.get_result(validator_name)`: the stored status's `result`, or
`None` when the action is absent. -/
def ValidatorResult.get_result (self : ValidatorResult) (validator_name : String) : PyVal :=
  match odLookup self.h_action validator_name with
  | none => PyVal.pynone
  | some status => status.result

/-- `ValidatorResults`: map from field key to `ValidatorResult` (`_h_results`). -/
structure ValidatorResults where
  h_results : List (String × ValidatorResult) := []
deriving DecidableEq, Repr

/-- `ValidatorResults.add(field, validator_name, result, value)`: create the field's
`ValidatorResult` on first use, then record the action. -/
def ValidatorResults.add (self : ValidatorResults) (field_key validator_name : String)
    (result : Bool) (value : PyVal) : ValidatorResults :=
  let vr := (odLookup self.h_results field_key).getD {}
  { self with h_results := odInsert self.h_results field_key (vr.add validator_name result value) }

/-- `ValidatorResults.get_result_value_map` (validator_results.py lines 74-88): the
loop body's first expression is `validator_result.get_actions()`, but that method was
removed from `ValidatorResult` (it is commented out as deprecated in
validator_result.py), so the first iteration raises `AttributeError`; only an empty
result set returns the (empty) dictionary. -/
def ValidatorResults.get_result_value_map (self : ValidatorResults) :
    Except String (List (String × PyVal)) :=
  match self.h_results with
  | [] => Except.ok []
  | _ :: _ => Except.error "AttributeError: ValidatorResult object has no attribute get_actions"

/-- Sum of the decimal digits of a natural number. -/
def digitSum (n : Nat) : Nat :=
  if h : n < 10 then n
  else n % 10 + digitSum (n / 10)
termination_by n
decreasing_by exact Nat.div_lt_self (by omega) (by omega)

deriving instance DecidableEq for Except

/-! ## Concrete configurations used by counterexamples and witnesses -/

/-- A field of the `"en"` FormSet's `userForm`, distinguishing it from the default
FormSet's form. -/
def enField : Field := ⟨"enField", []⟩

/-- The `userForm` held by the `"en"` FormSet. -/
def enUserForm : Form :=
  { name := "userForm", lFields := [enField], hFields := [("enField", enField)] }

/-- The `userForm` held by the default FormSet (no fields). -/
def defaultUserForm : Form := { name := "userForm" }

/-- A FormSet registered for language `"en"` only. -/
def enFormSet : FormSet := { language := some "en", forms := [("userForm", enUserForm)] }

/-- The default FormSet (no locale components). -/
def defaultFormSet : FormSet := { forms := [("userForm", defaultUserForm)] }

/-- Resources with FormSets registered only for `"en"` and the default, built through
`add_form_set`. -/
def c1Resources : ValidatorResources :=
  (({} : ValidatorResources).add_form_set enFormSet).add_form_set defaultFormSet

/-- Two distinct field configurations sharing the key `"B"`. -/
def fieldB1 : Field := ⟨"B", [("x", "1")]⟩

/-- Second configuration for key `"B"`. -/
def fieldB2 : Field := ⟨"B", [("x", "2")]⟩

/-- The parent form `base` of spec scenario 4, holding fields `A` and `B`. -/
def baseForm : Form :=
  (({ name := "base" } : Form).add_field ⟨"A", []⟩).add_field fieldB1

/-- The child form `derived` (`extends="base"`), declaring only its own `B`. -/
def derivedForm : Form :=
  ({ name := "derived", inherit := some "base" } : Form).add_field fieldB2

/-- The forms map containing `base` and `derived`. -/
def c2Forms : List (String × Form) := [("base", baseForm), ("derived", derivedForm)]

/-- The result of processing `derived` (two units of fuel suffice for one parent
level). -/
def derivedProcessed : Form :=
  (Form.processAux 2 [] [] c2Forms derivedForm).getD {}

/-- The value `base` processes to (its own fields processed, marked processed). -/
def baseFormProcessed : Form :=
  { name := "base", lFields := [Field.mk "A" [], fieldB1],
    hFields := [("A", Field.mk "A" []), ("B", fieldB1)],
    inherit := none, processed := true }

/-- A FormSet holding one form, used to exercise `FormSet._merge`. -/
def c5FormSet : FormSet := ({} : FormSet).add_form { name := "f" }

/-- Validation results holding one recorded action, used to exercise
`get_result_value_map`. -/
def c8Results : ValidatorResults :=
  ({} : ValidatorResults).add "firstName" "required" true (PyVal.obj 0)

/-- A `CodeValidator` with no format step, no length bounds and the EAN-13 routine. -/
def c3Validator : CodeValidator := ⟨some, -1, -1, some ean13CheckDigit⟩

/-! # Theorems -/

theorem odLookup_insert {α : Type} (d : List (String × α)) (k k' : String) (v : α) :
    odLookup (odInsert d k v) k' = if k = k' then some v else odLookup d k' := by
  induction d with
  | nil => simp [odInsert, odLookup]
  | cons hd tl ih =>
    obtain ⟨k₀, v₀⟩ := hd
    by_cases h₀ : k₀ = k
    · subst h₀
      by_cases h₁ : k₀ = k'
      · subst h₁; simp [odInsert, odLookup]
      · simp [odInsert, odLookup, h₁]
    · by_cases h₁ : k₀ = k'
      · subst h₁
        have hne : ¬(k = k₀) := fun h => h₀ h.symm
        simp [odInsert, odLookup, h₀, hne]
      · simp [odInsert, odLookup, h₀, h₁, ih]

theorem odContains_insert {α : Type} (d : List (String × α)) (k k' : String) (v : α) :
    odContains (odInsert d k v) k' = (decide (k = k') || odContains d k') := by
  by_cases h : k = k' <;> simp [odContains, odLookup_insert, h]

theorem odContains_iff_mem_keys {α : Type} (d : List (String × α)) (k : String) :
    odContains d k = true ↔ k ∈ d.map Prod.fst := by
  induction d with
  | nil => simp [odContains, odLookup]
  | cons hd tl ih =>
    obtain ⟨k₀, v₀⟩ := hd
    by_cases h₀ : k₀ = k
    · subst h₀; simp [odContains, odLookup]
    · simp only [List.map_cons, List.mem_cons]
      rw [show odContains ((k₀, v₀) :: tl) k = odContains tl k by
        simp [odContains, odLookup, h₀]]
      rw [ih]
      constructor
      · exact Or.inr
      · rintro (h | h)
        · exact absurd h.symm h₀
        · exact h

theorem odInsert_keys {α : Type} (d : List (String × α)) (k : String) (v : α) :
    (odInsert d k v).map Prod.fst =
      if odContains d k then d.map Prod.fst else d.map Prod.fst ++ [k] := by
  induction d with
  | nil => simp [odInsert, odContains, odLookup]
  | cons hd tl ih =>
    obtain ⟨k₀, v₀⟩ := hd
    by_cases h₀ : k₀ = k
    · subst h₀; simp [odInsert, odContains, odLookup]
    · have hc : odContains ((k₀, v₀) :: tl) k = odContains tl k := by
        simp [odContains, odLookup, h₀]
      by_cases h₁ : odContains tl k
      · simp [odInsert, h₀, hc, h₁, ih]
      · simp [odInsert, h₀, hc, h₁, ih]

theorem odInsert_keys_nodup {α : Type} (d : List (String × α)) (k : String) (v : α)
    (h : (d.map Prod.fst).Nodup) : ((odInsert d k v).map Prod.fst).Nodup := by
  rw [odInsert_keys]
  by_cases h₁ : odContains d k
  · simpa [h₁] using h
  · have hk : k ∉ d.map Prod.fst := fun hm => h₁ ((odContains_iff_mem_keys d k).2 hm)
    have h₂ : odContains d k = false := by simpa using h₁
    simp only [h₂, Bool.false_eq_true, if_false]
    rw [List.nodup_append]
    refine ⟨h, List.nodup_singleton k, ?_⟩
    intro a ha hb
    have hb' : a = k := by simpa using hb
    subst hb'
    exact hk ha

theorem insertAt_length_left {α : Type} (acc l : List α) (a : α) :
    insertAt acc.length a (acc ++ l) = (acc ++ [a]) ++ l := by
  simp [insertAt, List.take_left, List.drop_left]

theorem Form.inheritLoop_spec (pf : List Field) :
    ∀ (acc l : List Field) (h : List (String × Field)),
      Form.inheritLoop pf (acc ++ l) h acc.length =
        ((acc ++ seqFilter h pf) ++ l, seqFilterH h pf,
          acc.length + (seqFilter h pf).length) := by
  induction pf with
  | nil => intro acc l h; simp [Form.inheritLoop, seqFilter, seqFilterH]
  | cons f rest ih =>
    intro acc l h
    by_cases hc : odContains h f.get_key
    · simp [Form.inheritLoop, seqFilter, seqFilterH, hc, ih]
    · have step := insertAt_length_left acc l f
      have hlen : acc.length + 1 = (acc ++ [f]).length := by simp
      calc Form.inheritLoop (f :: rest) (acc ++ l) h acc.length
          = Form.inheritLoop rest ((acc ++ [f]) ++ l) (odInsert h f.get_key f)
              ((acc ++ [f]).length) := by
            simp only [Form.inheritLoop, hc, Bool.false_eq_true, if_false, step, hlen]
        _ = (((acc ++ [f]) ++ seqFilter (odInsert h f.get_key f) rest) ++ l,
              seqFilterH (odInsert h f.get_key f) rest,
              (acc ++ [f]).length + (seqFilter (odInsert h f.get_key f) rest).length) :=
            ih (acc ++ [f]) l (odInsert h f.get_key f)
        _ = ((acc ++ seqFilter h (f :: rest)) ++ l, seqFilterH h (f :: rest),
              acc.length + (seqFilter h (f :: rest)).length) := by
            simp [seqFilter, seqFilterH, hc, List.append_assoc]
            omega

/-- `seqFilter` only looks at key membership of the map, so maps with the same
key set filter identically. -/
theorem seqFilter_congr (pf : List Field) :
    ∀ (h₁ h₂ : List (String × Field)),
      (∀ k, odContains h₁ k = odContains h₂ k) → seqFilter h₁ pf = seqFilter h₂ pf := by
  induction pf with
  | nil => intro h₁ h₂ _; rfl
  | cons f rest ih =>
    intro h₁ h₂ hkeys
    by_cases hc : odContains h₁ f.get_key
    · have hc₂ : odContains h₂ f.get_key = true := (hkeys f.get_key) ▸ hc
      simp [seqFilter, hc, hc₂, ih h₁ h₂ hkeys]
    · have hc₂ : odContains h₂ f.get_key = false := by
        rw [← hkeys f.get_key]; simpa using hc
      simp [seqFilter, hc, hc₂]
      exact ih _ _ fun k => by simp [odContains_insert, hkeys k]

/-- Inserting a key that no remaining parent field carries does not change the
sequential filter. -/
theorem seqFilter_insert_fresh (pf : List Field) :
    ∀ (h : List (String × Field)) (k : String) (v : Field),
      k ∉ pf.map Field.get_key →
      seqFilter (odInsert h k v) pf = seqFilter h pf := by
  induction pf with
  | nil => intro h k v _; rfl
  | cons f rest ih =>
    intro h k v hk
    have hne : f.get_key ≠ k := by
      intro hEq; exact hk (by simp [hEq.symm])
    have hkr : k ∉ rest.map Field.get_key := by
      intro hmem; exact hk (by simp [hmem])
    have hne' : ¬(k = f.get_key) := fun hEq => hne hEq.symm
    have hcontains : odContains (odInsert h k v) f.get_key = odContains h f.get_key := by
      simp [odContains_insert, hne']
    by_cases hc : odContains h f.get_key
    · simp [seqFilter, hcontains, hc, ih h k v hkr]
    · simp only [seqFilter, hcontains, hc, Bool.false_eq_true, if_false]
      refine congrArg (f :: ·) ?_
      calc seqFilter (odInsert (odInsert h k v) f.get_key f) rest
          = seqFilter (odInsert (odInsert h f.get_key f) k v) rest := by
            refine seqFilter_congr rest _ _ fun k' => by
              simp [odContains_insert]
              by_cases h₁ : k = k' <;> by_cases h₂ : f.get_key = k' <;> simp [h₁, h₂]
        _ = seqFilter (odInsert h f.get_key f) rest := ih _ k v hkr

/-- Under distinct parent field keys the sequential filter is the plain filter. -/
theorem seqFilter_eq_filter (pf : List Field) :
    ∀ (h : List (String × Field)), (pf.map Field.get_key).Nodup →
      seqFilter h pf = pf.filter (fun f => !odContains h f.get_key) := by
  induction pf with
  | nil => intro h _; rfl
  | cons f rest ih =>
    intro h hnd
    simp only [List.map_cons, List.nodup_cons] at hnd
    by_cases hc : odContains h f.get_key
    · simp [seqFilter, List.filter, hc, ih h hnd.2]
    · simp only [seqFilter, List.filter, hc, Bool.false_eq_true, if_false, Bool.not_false]
      refine congrArg (f :: ·) ?_
      rw [seqFilter_insert_fresh rest h f.get_key f hnd.1]
      exact ih h hnd.2

/-- A key already present in the map is untouched by the loop's map updates. -/
theorem seqFilterH_lookup_mem (pf : List Field) :
    ∀ (h : List (String × Field)) (k : String), odContains h k = true →
      odLookup (seqFilterH h pf) k = odLookup h k := by
  induction pf with
  | nil => intro h k _; rfl
  | cons f rest ih =>
    intro h k hk
    by_cases hc : odContains h f.get_key
    · simp [seqFilterH, hc, ih h k hk]
    · have hne : f.get_key ≠ k := fun hEq => hc (hEq ▸ hk)
      simp only [seqFilterH, hc, Bool.false_eq_true, if_false]
      rw [ih (odInsert h f.get_key f) k (by simp [odContains_insert, hk])]
      simp [odLookup_insert, hne]

/-- Mapping a key-preserving transform over an ordered dict transforms the looked-up
value. -/
theorem odLookup_map_transform {α : Type} (d : List (String × α)) (T : String → α → α)
    (k : String) :
    odLookup (d.map fun kv => (kv.1, T kv.1 kv.2)) k = (odLookup d k).map (T k) := by
  induction d with
  | nil => rfl
  | cons hd tl ih =>
    obtain ⟨k₀, v₀⟩ := hd
    by_cases h₀ : k₀ = k
    · subst h₀; simp [odLookup]
    · simp [odLookup, h₀, ih]

/-! ## C10: `build_locale` collapses distinct locale triples -/

/-- C10: `build_locale` joins only the non-empty components with `"_"`, so for every
non-empty `s` the triples `(s, None, None)`, `(None, s, None)` and `(None, None, s)`
all map to the key `s`, and FormSets carrying those distinct locale triples occupy the
same slot of the registry used by `add_form_set` (the later registration overriding
the earlier one). -/
theorem c10_build_locale_collapses (s : String) (hs : s ≠ "")
    (r : ValidatorResources) (fsA fsB : FormSet)
    (hA1 : fsA.language = some s) (hA2 : fsA.country = none) (hA3 : fsA.variant = none)
    (hB1 : fsB.language = none) (hB2 : fsB.country = some s) (hB3 : fsB.variant = none) :
    ValidatorResources.build_locale (some s) none none = s ∧
    ValidatorResources.build_locale none (some s) none = s ∧
    ValidatorResources.build_locale none none (some s) = s ∧
    ValidatorResources.build_key fsA = ValidatorResources.build_key fsB ∧
    odLookup ((r.add_form_set fsA).add_form_set fsB).h_form_sets s = some fsB := by
  have h1 : ValidatorResources.build_locale (some s) none none = s := by
    simp [ValidatorResources.build_locale, joinUnderscore, hs]
  have h2 : ValidatorResources.build_locale none (some s) none = s := by
    simp [ValidatorResources.build_locale, joinUnderscore, hs]
  have h3 : ValidatorResources.build_locale none none (some s) = s := by
    simp [ValidatorResources.build_locale, joinUnderscore, hs]
  have hkA : ValidatorResources.build_key fsA = s := by
    rw [ValidatorResources.build_key, hA1, hA2, hA3]; exact h1
  have hkB : ValidatorResources.build_key fsB = s := by
    rw [ValidatorResources.build_key, hB1, hB2, hB3]; exact h2
  refine ⟨h1, h2, h3, hkA.trans hkB.symm, ?_⟩
  rw [ValidatorResources.add_form_set]
  simp only [hkB, if_neg hs]
  simp [odLookup_insert]

/-- Witness for C10 at `s = "en"`. -/
theorem c10_witness :
    ValidatorResources.build_locale (some "en") none none = "en" ∧
    ValidatorResources.build_locale none (some "en") none = "en" ∧
    ValidatorResources.build_locale none none (some "en") = "en" ∧
    ValidatorResources.build_key { language := some "en" } =
      ValidatorResources.build_key { country := some "en" } ∧
    odLookup ((({} : ValidatorResources).add_form_set { language := some "en" }).add_form_set
        { country := some "en" }).h_form_sets "en" = some { country := some "en" } :=
  c10_build_locale_collapses "en" (by decide) {} { language := some "en" }
    { country := some "en" } rfl rfl rfl rfl rfl rfl

/-! ## C6: `FormSet._get_type` classification and errors -/

/-- C6: `_get_type` raises exactly when the variant is set while language or country
is unset, or the country is set while language is unset; otherwise it classifies by
the most specific component that is set (set = Python-truthy). -/
theorem c6_get_type_classification (fs : FormSet) :
    ((∃ e, fs.get_type = Except.error e) ↔
      (truthyStr fs.variant = true ∧
        (truthyStr fs.language = false ∨ truthyStr fs.country = false)) ∨
      (truthyStr fs.country = true ∧ truthyStr fs.language = false)) ∧
    (truthyStr fs.variant = true → truthyStr fs.language = true →
      truthyStr fs.country = true → fs.get_type = Except.ok FormSet.VARIANT_FORMSET) ∧
    (truthyStr fs.variant = false → truthyStr fs.country = true →
      truthyStr fs.language = true → fs.get_type = Except.ok FormSet.COUNTRY_FORMSET) ∧
    (truthyStr fs.variant = false → truthyStr fs.country = false →
      truthyStr fs.language = true → fs.get_type = Except.ok FormSet.LANGUAGE_FORMSET) ∧
    (truthyStr fs.variant = false → truthyStr fs.country = false →
      truthyStr fs.language = false → fs.get_type = Except.ok FormSet.GLOBAL_FORMSET) := by
  cases hv : truthyStr fs.variant <;> cases hc : truthyStr fs.country <;>
    cases hl : truthyStr fs.language <;>
    simp [FormSet.get_type, hv, hc, hl]

/-- Witness for C6: a fully specified locale classifies as a variant FormSet. -/
theorem c6_witness :
    FormSet.get_type { language := some "en", country := some "US", variant := some "x" } =
      Except.ok FormSet.VARIANT_FORMSET :=
  (c6_get_type_classification _).2.1 rfl rfl rfl

/-! ## C7: the Luhn per-digit weighted value folds to the digit sum -/

theorem digitSum_le_18 (m : Nat) (h : m ≤ 18) :
    digitSum m = if m < 10 then m else m - 9 := by
  by_cases h1 : m < 10
  · rw [digitSum]; simp [h1]
  · have hd : m / 10 = 1 := by omega
    have h2 : digitSum (m / 10) = 1 := by rw [hd, digitSum]; simp
    rw [digitSum, dif_neg h1, h2, if_neg h1]
    omega

/-- C7: for a digit value and any right position, the Luhn weighted value is the
decimal digit sum of the digit times its positional weight (2 at even right
positions, 1 at odd ones) — the product reduced by 9 exactly when it exceeds 9. -/
theorem c7_luhn_weighted_value (char_value left_pos right_pos : Nat)
    (h : char_value ≤ 9) :
    LuhnCheckDigit.weighted_value char_value left_pos right_pos =
      digitSum (char_value * (if right_pos % 2 = 0 then 2 else 1)) := by
  rcases Nat.mod_two_eq_zero_or_one right_pos with h2 | h2
  · have hw : (if right_pos % 2 = 0 then 2 else 1) = 2 := by simp [h2]
    simp only [LuhnCheckDigit.weighted_value, hw]
    rw [digitSum_le_18 _ (by omega)]
    split_ifs <;> omega
  · have hw : (if right_pos % 2 = 0 then 2 else 1) = 1 := by simp [h2]
    simp only [LuhnCheckDigit.weighted_value, hw]
    rw [digitSum_le_18 _ (by omega)]
    split_ifs <;> omega

/-- Witness for C7 at digit 7, right position 2: the weighted value 14 folds to 5. -/
theorem c7_witness :
    LuhnCheckDigit.weighted_value 7 1 2 = digitSum (7 * (if 2 % 2 = 0 then 2 else 1)) :=
  c7_luhn_weighted_value 7 1 2 (by decide)

/-! ## C9: `Form.add_field` and key uniqueness -/

theorem foldl_add_field_lFields (fs : List Field) :
    ∀ F : Form, (fs.foldl Form.add_field F).lFields = F.lFields ++ fs := by
  induction fs with
  | nil => intro F; simp
  | cons f rest ih =>
    intro F
    simp only [List.foldl_cons, ih, Form.add_field, List.append_assoc, List.cons_append,
      List.nil_append]

theorem foldl_add_field_keys_nodup (fs : List Field) :
    ∀ F : Form, (F.hFields.map Prod.fst).Nodup →
      ((fs.foldl Form.add_field F).hFields.map Prod.fst).Nodup := by
  induction fs with
  | nil => intro F h; simpa using h
  | cons f rest ih =>
    intro F h
    exact ih _ (odInsert_keys_nodup _ _ _ h)

theorem foldl_add_field_lookup (fs : List Field) (k : String) :
    ∀ F : Form, odLookup (fs.foldl Form.add_field F).hFields k =
      fs.foldl (fun acc f => if f.get_key = k then some f else acc) (odLookup F.hFields k) := by
  induction fs with
  | nil => intro F; rfl
  | cons f rest ih =>
    intro F
    simp only [List.foldl_cons, ih, Form.add_field, odLookup_insert]

/-- Counterexample to C9: two `add_field` calls with the same key leave two list
entries carrying that key — the field is appended, not re-positioned into one slot. -/
theorem c9_counterexample :
    ((({} : Form).add_field fieldB1).add_field fieldB2).lFields = [fieldB1, fieldB2] ∧
    fieldB1.get_key = "B" ∧ fieldB2.get_key = "B" ∧ fieldB1 ≠ fieldB2 ∧
    (((({} : Form).add_field fieldB1).add_field fieldB2).lFields.countP
      (fun f => f.get_key == "B")) = 2 := by
  decide

/-- C9 amended: after any sequence of `add_field` calls on a fresh Form, the field
list holds every added field in insertion order (so a repeated key yields repeated
list entries), while the field map keeps exactly one slot per distinct key, holding
the most recently added field with that key. -/
theorem c9_amended_add_field (fs : List Field) (k : String) :
    (fs.foldl Form.add_field ({} : Form)).lFields = fs ∧
    (((fs.foldl Form.add_field ({} : Form)).hFields.map Prod.fst).Nodup) ∧
    odLookup (fs.foldl Form.add_field ({} : Form)).hFields k =
      fs.foldl (fun acc f => if f.get_key = k then some f else acc) none := by
  refine ⟨?_, ?_, ?_⟩
  · simpa using foldl_add_field_lFields fs {}
  · exact foldl_add_field_keys_nodup fs {} (by simp)
  · simpa using foldl_add_field_lookup fs k {}

/-- Witness for the amended C9 at two same-keyed fields: the list keeps both, the map
keeps the later one. -/
theorem c9_amended_witness :
    ([fieldB1, fieldB2].foldl Form.add_field ({} : Form)).lFields = [fieldB1, fieldB2] ∧
    ((([fieldB1, fieldB2].foldl Form.add_field ({} : Form)).hFields.map Prod.fst).Nodup) ∧
    odLookup ([fieldB1, fieldB2].foldl Form.add_field ({} : Form)).hFields "B" =
      [fieldB1, fieldB2].foldl (fun acc f => if f.get_key = "B" then some f else acc) none :=
  c9_amended_add_field [fieldB1, fieldB2] "B"

/-! ## C1: the language-level fallback of `get_form` is skipped -/

/-- C1 fails on the code: with FormSets registered only for `"en"` and the default,
`get_form("en", "US", None, "userForm")` returns the default FormSet's form even
though the `"en"` FormSet holds a form of that name, because the language-level guard
`if form_set is None` is inverted. -/
theorem c1_language_level_skipped :
    c1Resources.get_form_with_locale (some "en") (some "US") none "userForm" =
      some defaultUserForm ∧
    enFormSet.get_form "userForm" = some enUserForm ∧
    odLookup c1Resources.h_form_sets "en" = some enFormSet ∧
    c1Resources.default_form_set = some defaultFormSet ∧
    defaultUserForm ≠ enUserForm := by
  decide

/-! ## C5: `FormSet._merge` crashes on its first statement -/

/-- C5 fails on the code: merging any (non-`None`) more-general FormSet raises
`AttributeError` at `p_forms = self.get_forms()` — the class only defines the
property `forms` — so no form is merged and `merged` remains `False`. -/
theorem c5_merge_raises :
    c5FormSet.mergeSet (some c5FormSet) =
      Except.error "AttributeError: FormSet object has no attribute get_forms" ∧
    c5FormSet.merged = false ∧ c5FormSet.forms ≠ [] := by
  refine ⟨rfl, rfl, by decide⟩

/-! ## C8: `get_result_value_map` raises on any non-empty result set -/

/-- C8 fails on the code: with one recorded action the loop body immediately calls
the removed method `ValidatorResult.get_actions`, raising `AttributeError` instead of
returning the non-boolean value map. -/
theorem c8_get_result_value_map_raises :
    c8Results.get_result_value_map =
      Except.error "AttributeError: ValidatorResult object has no attribute get_actions" ∧
    c8Results.h_results ≠ [] ∧
    (({} : ValidatorResults).get_result_value_map = Except.ok []) := by
  refine ⟨rfl, by decide, rfl⟩

/-! ## C4: `Form._process` is idempotent -/

theorem Form.processAux_processed (fuel : Nat) (g c : Consts)
    (forms : List (String × Form)) (f f2 : Form)
    (h : Form.processAux (fuel + 1) g c forms f = some f2) : f2.processed = true := by
  simp only [Form.processAux] at h
  by_cases hp : f.processed = true
  · rw [if_pos hp] at h
    injection h with h'
    rw [← h']
    exact hp
  · rw [if_neg hp] at h
    split at h
    · exact absurd h (by simp)
    · injection h with h'
      rw [← h']

/-- C4: a Form produced by a completed `_process` run is processed, so a second
`_process` call — with any fuel, constants and forms map — returns immediately and
leaves the field list and field map exactly as the first call left them. -/
theorem c4_process_idempotent (fuel fuel2 : Nat) (g c g2 c2 : Consts)
    (forms forms2 : List (String × Form)) (f f2 : Form)
    (h : Form.processAux (fuel + 1) g c forms f = some f2) :
    Form.processAux (fuel2 + 1) g2 c2 forms2 f2 = some f2 := by
  have hp := Form.processAux_processed fuel g c forms f f2 h
  simp [Form.processAux, hp]

/-- Witness for C4: processing a fresh empty Form and then processing the result is
the identity on it. -/
theorem c4_witness :
    Form.processAux 1 [] [] [] ({ processed := true } : Form) =
      some ({ processed := true } : Form) :=
  c4_process_idempotent 0 0 [] [] [] [] [] [] ({} : Form) { processed := true } (by rfl)

/-! ## C2: the inheritance merge of `Form._process` -/

theorem c2_core (g c : Consts) (child : Form) (pf : List Field)
    (l : List Field) (hh : List (String × Field)) (n : Nat)
    (heq : Form.inheritLoop pf child.lFields child.hFields 0 = (l, hh, n)) :
    ((pf.map Field.get_key).Nodup →
      (Form.processOwn g c l hh n).1 =
        pf.filter (fun f => !child.contains_field f.get_key) ++
          child.lFields.map (fun f => f.process g c)) ∧
    (∀ k fk, odLookup child.hFields k = some fk →
      (∃ f ∈ child.lFields, f.get_key = k) →
      odLookup (Form.processOwn g c l hh n).2 k = some (fk.process g c)) := by
  have hspec := Form.inheritLoop_spec pf [] child.lFields child.hFields
  simp only [List.nil_append, List.length_nil, Nat.zero_add] at hspec
  rw [hspec] at heq
  injection heq with h1 h23
  injection h23 with h2 h3
  subst h1
  subst h2
  subst h3
  constructor
  · intro hnd
    simp only [Form.processOwn, List.take_left, List.drop_left]
    rw [seqFilter_eq_filter pf child.hFields hnd]
    rfl
  · intro k fk hk hex
    simp only [Form.processOwn, List.drop_left]
    have hfun :
        (fun kv : String × Field =>
            if (child.lFields.any fun f => f.get_key == kv.1) then
              (kv.1, kv.2.process g c) else kv) =
          fun kv : String × Field =>
            (kv.1,
              if (child.lFields.any fun f => f.get_key == kv.1) then
                kv.2.process g c else kv.2) := by
      funext kv
      by_cases hcond : (child.lFields.any fun f => f.get_key == kv.1) = true <;> simp [hcond]
    rw [hfun]
    have htr := odLookup_map_transform (seqFilterH child.hFields pf)
      (fun k' v => if (child.lFields.any fun f => f.get_key == k') then v.process g c else v) k
    simp only [] at htr
    rw [htr]
    rw [seqFilterH_lookup_mem pf child.hFields k (by simp [odContains, hk])]
    rw [hk]
    have hany : (child.lFields.any fun f => f.get_key == k) = true := by
      rcases hex with ⟨f, hf, hfk⟩
      exact List.any_eq_true.2 ⟨f, hf, by simp [hfk]⟩
    simp [hany]

/-- C2: for a Form extending a parent present in the forms map, a completed
`_process` leaves the field list as: the (processed) parent's fields whose keys the
child did not declare, in the parent's order, followed by the child's own declared
fields (processed in place); and for every key the child itself declares (with the
field present in its list, as `add_field` guarantees), the map keeps the child's own
field — never the parent's. -/
theorem c2_form_inheritance
    (fuel : Nat) (g c : Consts) (forms : List (String × Form))
    (child parent child2 : Form) (pname : String)
    (hunproc : child.processed = false)
    (hext : child.inherit = some pname)
    (hpar : odLookup forms pname = some parent)
    (hproc : Form.processAux (fuel + 1) g c forms child = some child2) :
    ∃ parentFields : List Field,
      ((parent.processed = true ∧ parentFields = parent.lFields) ∨
        (parent.processed = false ∧ ∃ parent2,
          Form.processAux fuel c g forms parent = some parent2 ∧
          parentFields = parent2.lFields)) ∧
      ((parentFields.map Field.get_key).Nodup →
        child2.lFields =
          parentFields.filter (fun f => !child.contains_field f.get_key) ++
            child.lFields.map (fun f => f.process g c)) ∧
      (∀ k fk, odLookup child.hFields k = some fk →
        (∃ f ∈ child.lFields, f.get_key = k) →
        odLookup child2.hFields k = some (fk.process g c)) := by
  simp only [Form.processAux, hunproc, Bool.false_eq_true, if_false, hext, hpar] at hproc
  split at hproc
  next heq => exact absurd hproc (by simp)
  next l hh n heq =>
    injection hproc with hc2
    by_cases hpp : parent.processed = true
    · rw [if_pos hpp] at heq
      injection heq with heq'
      have hcore := c2_core g c child parent.lFields l hh n heq'
      refine ⟨parent.lFields, Or.inl ⟨hpp, rfl⟩, ?_, ?_⟩
      · intro hnd
        rw [← hc2]
        exact hcore.1 hnd
      · intro k fk hk hex
        rw [← hc2]
        exact hcore.2 k fk hk hex
    · rw [if_neg hpp] at heq
      cases hrec : Form.processAux fuel c g forms parent with
      | none => rw [hrec] at heq; exact absurd heq (by simp)
      | some parent2 =>
        rw [hrec] at heq
        injection heq with heq'
        have hcore := c2_core g c child parent2.lFields l hh n heq'
        refine ⟨parent2.lFields,
          Or.inr ⟨by simpa using hpp, parent2, rfl, rfl⟩, ?_, ?_⟩
        · intro hnd
          rw [← hc2]
          exact hcore.1 hnd
        · intro k fk hk hex
          rw [← hc2]
          exact hcore.2 k fk hk hex

/-- Witness for C2 at spec scenario 4: `base` has fields `A`, `B`; `derived`
(`extends="base"`) declares its own `B` — after processing, `derived`'s fields are
`[A, B']` with the child's `B` configuration in list and map. -/
theorem c2_witness :
    derivedProcessed.lFields = [Field.mk "A" [], fieldB2.process [] []] ∧
    odLookup derivedProcessed.hFields "B" = some (fieldB2.process [] []) := by
  obtain ⟨pf, hsrc, hlist, hmap⟩ :=
    c2_form_inheritance 1 [] [] c2Forms derivedForm baseForm derivedProcessed "base"
      (by decide) (by decide) (by decide) (by decide)
  rcases hsrc with ⟨hb, _⟩ | ⟨_, parent2, hp2, rfl⟩
  · exact absurd hb (by decide)
  · have hX : Form.processAux 1 [] [] c2Forms baseForm = some baseFormProcessed := by
      decide
    have hpe : parent2 = baseFormProcessed := Option.some.inj (hp2.symm.trans hX)
    subst hpe
    refine ⟨(hlist (by decide)).trans (by decide), ?_⟩
    exact hmap "B" fieldB2 (by decide) ⟨fieldB2, by decide, by decide⟩

/-! ## C3: recomputing the check digit of a valid code reproduces it -/

theorem toIntDigit_le (ch : Char) (v : Nat) (h : toIntDigit ch = Except.ok v) : v ≤ 9 := by
  unfold toIntDigit at h
  split at h
  · injection h with h'
    omega
  · exact absurd h (by simp)

theorem toIntDigit_char (ch : Char) (v : Nat) (h : toIntDigit ch = Except.ok v) :
    Char.ofNat (48 + v) = ch := by
  unfold toIntDigit at h
  split at h
  next hrange =>
    injection h with h'
    have : 48 + v = ch.toNat := by omega
    rw [this]
    exact Char.ofNat_toNat ch
  · exact absurd h (by simp)

theorem sumWeighted_cons (wv : Nat → Nat → Nat → Nat) (lth : Nat) (ch : Char)
    (rest : List Char) (i v s : Nat)
    (hd : toIntDigit ch = Except.ok v)
    (hs : sumWeighted wv lth rest (i + 1) = Except.ok s) :
    sumWeighted wv lth (ch :: rest) i = Except.ok (wv v (i + 1) (lth - i) + s) := by
  unfold sumWeighted
  rw [hd, hs]

theorem sumWeighted_append (wv : Nat → Nat → Nat → Nat) (lth : Nat) (xs : List Char) :
    ∀ (ys : List Char) (i t : Nat),
      sumWeighted wv lth (xs ++ ys) i = Except.ok t →
      ∃ a b, sumWeighted wv lth xs i = Except.ok a ∧
        sumWeighted wv lth ys (i + xs.length) = Except.ok b ∧ t = a + b := by
  induction xs with
  | nil =>
    intro ys i t h
    exact ⟨0, t, rfl, by simpa using h, by omega⟩
  | cons ch rest ih =>
    intro ys i t h
    rw [List.cons_append] at h
    unfold sumWeighted at h
    split at h
    · exact absurd h (by simp)
    next v hd =>
      split at h
      · exact absurd h (by simp)
      next s hs =>
        injection h with ht
        obtain ⟨a, b, ha, hb, hab⟩ := ih ys (i + 1) s hs
        refine ⟨wv v (i + 1) (lth - i) + a, b, sumWeighted_cons wv lth ch rest i v a hd ha,
          ?_, by omega⟩
        rw [show i + (ch :: rest).length = i + 1 + rest.length by
          simp only [List.length_cons]; omega]
        exact hb

/-- Core roundtrip for the modulus-10 family: a code accepted by `is_valid` ends in
exactly the character `calculate` recomputes from its body, provided the weighting
gives the trailing position (right position 1) weight one — which both Luhn and
EAN-13 do. -/
theorem calculate_modulus_ok (alg : ModulusCheckDigit) (code : String)
    (inc : Bool) (m : Nat)
    (h : alg.calculate_modulus code inc = Except.ok m) :
    ∃ T, sumWeighted alg.weightedValue
        (code.data.length + (if inc then 0 else 1)) code.data 0 = Except.ok T ∧
      T ≠ 0 ∧ m = T % alg.modulus := by
  cases hsw : sumWeighted alg.weightedValue
      (code.data.length + (if inc then 0 else 1)) code.data 0 with
  | error e =>
    have hcontra : alg.calculate_modulus code inc = Except.error e := by
      unfold ModulusCheckDigit.calculate_modulus
      rw [hsw]
    rw [hcontra] at h
    exact absurd h (by simp)
  | ok T =>
    have hok : alg.calculate_modulus code inc =
        (if T = 0 then Except.error "Invalid code, sum is zero"
          else Except.ok (T % alg.modulus)) := by
      unfold ModulusCheckDigit.calculate_modulus
      rw [hsw]
    rw [hok] at h
    by_cases hT0 : T = 0
    · rw [if_pos hT0] at h
      exact absurd h (by simp)
    · rw [if_neg hT0] at h
      injection h with h'
      exact ⟨T, rfl, hT0, h'.symm⟩

theorem modulus10_roundtrip (alg : ModulusCheckDigit)
    (hm : alg.modulus = 10)
    (hwv : ∀ v lp, v ≤ 9 → alg.weightedValue v lp 1 = v)
    (code : String) (h : alg.is_valid code = true) :
    ∃ body ch, code.data = body ++ [ch] ∧
      alg.calculate (String.mk body) = Except.ok ch := by
  unfold ModulusCheckDigit.is_valid at h
  split at h
  · exact absurd h (by simp)
  next hne =>
    split at h
    case h_2 => exact absurd h (by simp)
    case h_1 m hcm =>
      have hm0 : m = 0 := by simpa using h
      subst hm0
      obtain ⟨T, hsw, hT0, hTmod⟩ := calculate_modulus_ok alg code true 0 hcm
      rw [show code.data.length + (if (true : Bool) then 0 else 1) = code.data.length
        from rfl] at hsw
      -- abstract the fixed scan length before splitting the code
      generalize hL : code.data.length = L at hsw
      -- decompose the code into body and trailing check character
      have hnil : code.data ≠ [] := by
        intro h0
        rw [h0] at hne
        exact hne rfl
      obtain ⟨body, ch, hsplit⟩ : ∃ bd b, code.data = bd ++ [b] := by
        rcases List.eq_nil_or_concat code.data with h0 | ⟨bd, b, hc⟩
        · exact absurd h0 hnil
        · exact ⟨bd, b, by simpa [List.concat_eq_append] using hc⟩
      rw [hsplit] at hsw
      obtain ⟨a, b, ha, hb, hab⟩ :=
        sumWeighted_append alg.weightedValue L body [ch] 0 T hsw
      have hlen : L = body.length + 1 := by
        rw [← hL, hsplit]; simp
      -- evaluate the singleton tail
      cases hd : toIntDigit ch with
      | error e =>
        have hberr : sumWeighted alg.weightedValue L [ch] (0 + body.length) =
            Except.error e := by
          unfold sumWeighted
          rw [hd]
        rw [hberr] at hb
        exact absurd hb (by simp)
      | ok v =>
        have hbok : sumWeighted alg.weightedValue L [ch] (0 + body.length) =
            Except.ok (alg.weightedValue v (0 + body.length + 1) (L - (0 + body.length)) + 0) := by
          unfold sumWeighted
          rw [hd]
          rfl
        rw [hbok] at hb
        injection hb with hbv
        have hv9 : v ≤ 9 := toIntDigit_le ch v hd
        have hrp : L - (0 + body.length) = 1 := by omega
        rw [hrp] at hbv
        rw [hwv v (0 + body.length + 1) hv9] at hbv
        -- b is the trailing digit's value
        have hb' : b = v + 0 := hbv.symm
        -- modular bookkeeping
        have hamod : (a + v) % 10 = 0 := by
          rw [hm] at hTmod
          omega
        have ha0 : a ≠ 0 := by
          intro h0
          omega
        refine ⟨body, ch, hsplit, ?_⟩
        unfold ModulusCheckDigit.calculate
        have hbody_ne : body ≠ [] := by
          intro h0
          subst h0
          injection ha with ha'
          exact ha0 ha'.symm
        rw [if_neg (by simpa using hbody_ne)]
        have hcm2 : alg.calculate_modulus (String.mk body) false = Except.ok (a % 10) := by
          have hsum : sumWeighted alg.weightedValue
              ((String.mk body).data.length + (if (false : Bool) then 0 else 1))
              (String.mk body).data 0 = Except.ok a := by
            rw [show (String.mk body).data = body from rfl]
            rw [show body.length + (if (false : Bool) then 0 else 1) = L from by
              simp [hlen]]
            exact ha
          unfold ModulusCheckDigit.calculate_modulus
          rw [hsum]
          show (if a = 0 then Except.error "Invalid code, sum is zero"
            else Except.ok (a % alg.modulus)) = Except.ok (a % 10)
          rw [if_neg ha0, hm]
        rw [hcm2]
        show toCheckDigitChar ((alg.modulus - a % 10) % alg.modulus) = Except.ok ch
        rw [hm]
        have hd10 : (10 - a % 10) % 10 = v := by omega
        rw [hd10]
        unfold toCheckDigitChar
        rw [if_pos hv9]
        rw [toIntDigit_char ch v hd]

/-- C3: for each core check-digit algorithm (Luhn and EAN-13) and every code its
`CodeValidator` accepts, the canonical code ends in exactly the check character the
algorithm recomputes from the code's body:
`calculate(validate(code)[:-1]) == validate(code)[-1]`. -/
theorem c3_checkdigit_roundtrip
    (fmt : String → Option String) (minL maxL : Int) (alg : ModulusCheckDigit)
    (halg : alg = luhnCheckDigit ∨ alg = ean13CheckDigit)
    (code canonical : String)
    (h : (CodeValidator.mk fmt minL maxL (some alg)).validate code = some canonical) :
    ∃ body ch, canonical.data = body ++ [ch] ∧
      alg.calculate (String.mk body) = Except.ok ch := by
  have hvalid : alg.is_valid canonical = true := by
    unfold CodeValidator.validate at h
    simp only [] at h
    cases hf : fmt code with
    | none => rw [hf] at h; exact absurd h (by simp)
    | some candidate =>
      rw [hf] at h
      have h' : (if 0 ≤ minL ∧ (candidate.data.length : Int) < minL then none
          else if 0 ≤ maxL ∧ (candidate.data.length : Int) > maxL then none
          else if alg.is_valid candidate = true then some candidate else none) =
          some canonical := h
      split_ifs at h' with h1 h2 h3
      injection h' with hc
      rw [← hc]
      exact h3
  have hm : alg.modulus = 10 := by
    rcases halg with rfl | rfl <;> rfl
  have hwv : ∀ v lp, v ≤ 9 → alg.weightedValue v lp 1 = v := by
    rcases halg with rfl | rfl
    · intro v lp hv
      show LuhnCheckDigit.weighted_value v lp 1 = v
      unfold LuhnCheckDigit.weighted_value
      norm_num
      omega
    · intro v lp hv
      show EAN13CheckDigit.weighted_value v lp 1 = v
      unfold EAN13CheckDigit.weighted_value
      norm_num [EAN13CheckDigit.POSITION_WEIGHT]
  exact modulus10_roundtrip alg hm hwv canonical hvalid

/-- Witness for C3: the EAN-13 validator accepts `"9781930110991"` and recomputing
the check digit of its body reproduces the trailing `'1'`. -/
theorem c3_witness :
    c3Validator.validate "9781930110991" = some "9781930110991" ∧
    ∃ body ch, ("9781930110991" : String).data = body ++ [ch] ∧
      ean13CheckDigit.calculate (String.mk body) = Except.ok ch := by
  refine ⟨by decide, ?_⟩
  exact c3_checkdigit_roundtrip some (-1) (-1) ean13CheckDigit (Or.inr rfl)
    "9781930110991" "9781930110991" (by decide)

end ACV
